import Mathlib

/-!
Verification of the complex_networks repository.

Shallow embedding of the two source modules:

* src/code_geo.py — a reference table of country alpha-3 codes and centroid
  coordinates, normalised at load time; the haversine great-circle distance;
  and compute_distance, which resolves two codes and returns either a
  sentinel value or a distance.
* src/plot.py — co-mention aggregation over records holding lists of country
  codes (dedup, sort, 2-combinations, counting) and the per-pair
  subject-area breakdown with its empty-result branch.

Python strings are modelled as Lean String; string comparison, splitting,
stripping and uppercasing are modelled structurally over the code-point list
String.data (Python compares strings by code points; the codes in play are
ASCII).  Floating-point arithmetic is modelled by exact real arithmetic, as
the spec's numeric claims are stated over the formula itself.
-/

/-- Model of Python str.strip over code points: drop whitespace from both
ends. -/
def trimChars (l : List Char) : List Char :=
  ((l.dropWhile Char.isWhitespace).reverse.dropWhile Char.isWhitespace).reverse

namespace CodeGeo

/-- Model of Python str.upper over code points (ASCII case mapping, which
covers alpha-3 country codes). -/
def upperStr (s : String) : String := ⟨s.data.map Char.toUpper⟩

/-- One row of the loaded reference table: the stored Alpha-3 code text and
the centroid coordinates, as produced by the loader in src/code_geo.py
lines 8-27. -/
structure CountryRow where
  alpha3 : String
  lat : ℝ
  lon : ℝ

/-- Normalisation applied to the raw Alpha-3 code column (src/code_geo.py
lines 22-27): remove every double-quote character, then strip surrounding
whitespace.  Note it does NOT change letter case. -/
def normCode (s : String) : String :=
  ⟨trimChars (s.data.filter (fun c => c != '\x22'))⟩

/-- The loader's code-column pass: each row's raw alpha-3 text is normalised;
coordinates are kept (their quote-stripping and float parsing is modelled by
the rows already carrying real coordinates). -/
def loadTable (raw : List CountryRow) : List CountryRow :=
  raw.map (fun r => { r with alpha3 := normCode r.alpha3 })

/-- Degrees to radians, the model of math.radians. -/
noncomputable def radians (x : ℝ) : ℝ := x * (Real.pi / 180)

/-- The intermediate quantity a of the haversine implementation
(src/code_geo.py lines 33-36). -/
noncomputable def hav_a (lat1 lon1 lat2 lon2 : ℝ) : ℝ :=
  Real.sin (radians (lat2 - lat1) / 2) ^ 2 +
    Real.cos (radians lat1) * Real.cos (radians lat2) *
      Real.sin (radians (lon2 - lon1) / 2) ^ 2

/-- The haversine great-circle distance (src/code_geo.py lines 29-38):
R * c with R = 6371.0 and c = 2 * asin(sqrt a). -/
noncomputable def haversine (lat1 lon1 lat2 lon2 : ℝ) : ℝ :=
  6371.0 * (2 * Real.arcsin (Real.sqrt (hav_a lat1 lon1 lat2 lon2)))

/-- The three-way result of compute_distance: the equal-codes sentinel
string, the not-found sentinel string (carrying the two uppercased codes
interpolated into the message), or a numeric distance. -/
inductive DistResult where
  | equal : DistResult
  | notFound : String → String → DistResult
  | dist : ℝ → DistResult

/-- Model of compute_distance (src/code_geo.py lines 40-52): uppercase both
inputs; equal codes short-circuit; then membership of each uppercased code
in the stored Alpha-3 column decides the not-found branch; otherwise the
first matching row of each code supplies the centroid for haversine. -/
noncomputable def compute_distance (table : List CountryRow) (iso1 iso2 : String) : DistResult :=
  let u1 := upperStr iso1
  let u2 := upperStr iso2
  if u1 = u2 then DistResult.equal
  else if !(table.any (fun r => r.alpha3 == u1)) || !(table.any (fun r => r.alpha3 == u2)) then
    DistResult.notFound u1 u2
  else
    match table.find? (fun r => r.alpha3 == u1), table.find? (fun r => r.alpha3 == u2) with
    | some r1, some r2 => DistResult.dist (haversine r1.lat r1.lon r2.lat r2.lon)
    | _, _ => DistResult.notFound u1 u2

/-- A small concrete loaded table used to instantiate theorems. -/
def tblDemo : List CountryRow :=
  [⟨"USA", 38, -97⟩, ⟨"CAN", 60, -95⟩]

/-- A table not containing USA, used to exhibit a second failure pattern. -/
def tblCanOnly : List CountryRow :=
  [⟨"CAN", 60, -95⟩]

/-- A raw (pre-load) table whose USA row carries a lowercase code. -/
def rawLower : List CountryRow :=
  [⟨"usa", 38, -97⟩, ⟨"CAN", 60, -95⟩]

end CodeGeo

namespace Plot

/-- Code-point lexicographic strict comparison on character lists: the model
of Python string comparison, used by sorted(). -/
def lexLt : List Char → List Char → Bool
  | [], [] => false
  | [], _ :: _ => true
  | _ :: _, [] => false
  | a :: as, b :: bs =>
    if a.toNat < b.toNat then true
    else if b.toNat < a.toNat then false
    else lexLt as bs

/-- Strict string comparison, Python s < t. -/
def strLt (s t : String) : Bool := lexLt s.data t.data

/-- Non-strict string comparison, Python s <= t, i.e. not (t < s). -/
def strLe (s t : String) : Bool := !(lexLt t.data s.data)

/-- The non-strict order as a decidable relation for sorting. -/
def strLeP (a b : String) : Prop := strLe a b = true

instance : DecidableRel strLeP := fun a b => by unfold strLeP; infer_instance

/-- Model of sorted(set(lst)) (src/plot.py lines 31 and 78): deduplicate,
then sort in the code-point order.  On a duplicate-free list the sorted
result is the unique strictly increasing enumeration, so any correct sort
models Python's. -/
def uniqSorted (l : List String) : List String :=
  List.insertionSort strLeP l.dedup

/-- Ordered 2-combinations of a list, the model of
itertools.combinations(uniq, 2): every pair (x, y) with x strictly before y
in the list. -/
def pairs2 : List α → List (α × α)
  | [] => []
  | x :: xs => xs.map (fun y => (x, y)) ++ pairs2 xs

/-- The pairs one record contributes to the co-mention counter: a missing
list (dropped by dropna) contributes nothing, otherwise the
2-combinations of the deduplicated sorted list. -/
def recordPairs (r : Option (List String)) : List (String × String) :=
  match r with
  | none => []
  | some lst => pairs2 (uniqSorted lst)

/-- Occurrence count of a pair in a list of pairs. -/
def countOcc (p : String × String) (l : List (String × String)) : Nat :=
  (l.filter (fun q => q == p)).length

/-- The co-mention counter of src/plot.py lines 29-33 and 76-80, as a
function from a pair to its accumulated count over all records. -/
def aggregate : List (Option (List String)) → String × String → Nat
  | [], _ => 0
  | r :: rest, p => countOcc p (recordPairs r) + aggregate rest p

/-- One corpus record for the subject-breakdown function: an optional list
of country codes and an optional comma-separated subject string. -/
structure MRecord where
  countries : Option (List String)
  subjareas : Option String

/-- The row mask of src/plot.py line 139: the countries field must be an
actual list (NaN fails isinstance) containing both codes. -/
def pairMask (c1 c2 : String) (r : MRecord) : Bool :=
  match r.countries with
  | none => false
  | some lst => lst.contains c1 && lst.contains c2

/-- Model of Python str.split(',') over code points. -/
def splitComma : List Char → List (List Char)
  | [] => [[]]
  | c :: cs =>
    if c = ',' then [] :: splitComma cs
    else
      match splitComma cs with
      | [] => [[c]]
      | g :: gs => (c :: g) :: gs

/-- The subject labels one subjareas string contributes (src/plot.py lines
145-148): split on commas, strip each piece, keep the non-empty ones. -/
def subjLabels (entry : String) : List String :=
  ((splitComma entry.data).map (fun g => String.mk (trimChars g))).filter (fun s => s != "")

/-- Whether a record contributes no subject label: subjareas missing
(dropped by dropna) or stripping/splitting leaves only empty labels. -/
def subjEmpty (r : MRecord) : Bool :=
  match r.subjareas with
  | none => true
  | some e => subjLabels e == []

/-- The multiset of subject labels counted for a chosen pair (src/plot.py
lines 139-148): filter rows by the mask, drop missing subjareas, split each
into labels. -/
def subjCounterLabels (records : List MRecord) (c1 c2 : String) : List String :=
  (((records.filter (pairMask c1 c2)).filterMap (fun r => r.subjareas)).map subjLabels).flatten

/-- Observable outcome of plot_pair_mentions_by_subject: the returned
mapping (as an association list), whether the no-records diagnostic was
printed, and whether a chart was rendered. -/
structure SubjOutcome where
  counts : List (String × Nat)
  printedDiagnostic : Bool
  rendered : Bool
  deriving DecidableEq

/-- Model of plot_pair_mentions_by_subject (src/plot.py lines 103-169): if
the counter is empty, print the diagnostic and return the empty Series
without plotting; otherwise sort the counter descending by count, truncate
to top_n when top_n is set and non-zero (Python if top_n: is false for 0),
render, and return the series. -/
def plot_pair_mentions_by_subject (records : List MRecord) (c1 c2 : String)
    (topn : Option Nat) : SubjOutcome :=
  let labels := subjCounterLabels records c1 c2
  if labels.isEmpty then
    { counts := [], printedDiagnostic := true, rendered := false }
  else
    let series := labels.dedup.map (fun s => (s, countLabel s labels))
    let sorted := List.insertionSort (fun a b : String × Nat => b.2 ≤ a.2) series
    let cut :=
      match topn with
      | none => sorted
      | some n => if n == 0 then sorted else sorted.take n
    { counts := cut, printedDiagnostic := false, rendered := true }
where
  /-- Occurrence count of one label. -/
  countLabel (s : String) (labels : List String) : Nat :=
    (labels.filter (fun t => t == s)).length

/-- Demo aggregator input: one record with a duplicated code and one missing
list. -/
def recsDemo : List (Option (List String)) :=
  [some ["USA", "USA", "CAN"], none, some []]

/-- Demo corpus for the subject breakdown in which no record mentions both
USA and GBR. -/
def recsNoMatch : List MRecord :=
  [⟨some ["USA"], some "MATH"⟩, ⟨none, some "PHYS"⟩]

/-- Demo corpus for the subject breakdown in which records matching the pair
exist but none contributes a non-empty subject label. -/
def recsBlankSubj : List MRecord :=
  [⟨some ["USA", "GBR"], some " , "⟩, ⟨some ["USA", "GBR"], none⟩]

end Plot

namespace CodeGeo

theorem hav_a_symm (lat1 lon1 lat2 lon2 : ℝ) :
    hav_a lat1 lon1 lat2 lon2 = hav_a lat2 lon2 lat1 lon1 := by
  unfold hav_a radians
  rw [show (lat1 - lat2) * (Real.pi / 180) / 2 = -((lat2 - lat1) * (Real.pi / 180) / 2) by ring,
    show (lon1 - lon2) * (Real.pi / 180) / 2 = -((lon2 - lon1) * (Real.pi / 180) / 2) by ring,
    Real.sin_neg, Real.sin_neg]
  ring

theorem haversine_symm (lat1 lon1 lat2 lon2 : ℝ) :
    haversine lat1 lon1 lat2 lon2 = haversine lat2 lon2 lat1 lon1 := by
  unfold haversine
  rw [hav_a_symm]

/-- C8: whenever the two input codes are identical after uppercasing,
compute_distance returns the distinct Equal sentinel, regardless of the
codes' original letter case, and in particular never a numeric distance
value (so never the number 0). -/
theorem C8_equal_sentinel (table : List CountryRow) (iso1 iso2 : String)
    (h : upperStr iso1 = upperStr iso2) :
    compute_distance table iso1 iso2 = DistResult.equal ∧
      ∀ d : ℝ, compute_distance table iso1 iso2 ≠ DistResult.dist d := by
  have he : compute_distance table iso1 iso2 = DistResult.equal := by
    simp [compute_distance, h]
  exact ⟨he, fun d hd => by rw [he] at hd; exact DistResult.noConfusion hd⟩

/-- Witness for C8 at iso1 = "usa", iso2 = "USA" over the demo table. -/
theorem C8_witness :
    upperStr "usa" = upperStr "USA" ∧
      (compute_distance tblDemo "usa" "USA" = DistResult.equal ∧
        ∀ d : ℝ, compute_distance tblDemo "usa" "USA" ≠ DistResult.dist d) :=
  ⟨by decide, C8_equal_sentinel tblDemo "usa" "USA" (by decide)⟩

/-- C9: the equal-codes check takes precedence over the table lookup: for
every table (in particular one not containing the code) and every code X,
compute_distance X X returns the Equal sentinel and never the not-found
sentinel. -/
theorem C9_equal_precedes_lookup (table : List CountryRow) (x : String) :
    compute_distance table x x = DistResult.equal ∧
      ∀ a b : String, compute_distance table x x ≠ DistResult.notFound a b := by
  have he : compute_distance table x x = DistResult.equal := by
    simp [compute_distance]
  exact ⟨he, fun a b hd => by rw [he] at hd; exact DistResult.noConfusion hd⟩

/-- C3: for codes resolved by the table whose uppercased forms differ,
compute_distance is exactly symmetric in its two arguments: the haversine
formula applied to the swapped centroid pair yields the identical real
value. -/
theorem C3_distance_symmetric (table : List CountryRow) (iso1 iso2 : String)
    (h1 : table.any (fun r => r.alpha3 == upperStr iso1) = true)
    (h2 : table.any (fun r => r.alpha3 == upperStr iso2) = true)
    (hne : upperStr iso1 ≠ upperStr iso2) :
    compute_distance table iso1 iso2 = compute_distance table iso2 iso1 := by
  have hf1 : (table.find? (fun r => r.alpha3 == upperStr iso1)).isSome :=
    List.find?_isSome.mpr (List.any_eq_true.mp h1)
  have hf2 : (table.find? (fun r => r.alpha3 == upperStr iso2)).isSome :=
    List.find?_isSome.mpr (List.any_eq_true.mp h2)
  obtain ⟨r1, hr1⟩ := Option.isSome_iff_exists.mp hf1
  obtain ⟨r2, hr2⟩ := Option.isSome_iff_exists.mp hf2
  unfold compute_distance
  simp only [if_neg hne, if_neg (Ne.symm hne), h1, h2, hr1, hr2, Bool.not_true,
    Bool.or_self, Bool.false_or, Bool.or_false, if_neg Bool.false_ne_true]
  rw [haversine_symm]

/-- Witness for C3 at the demo table with iso1 = "USA", iso2 = "CAN". -/
theorem C3_witness :
    (tblDemo.any (fun r => r.alpha3 == upperStr "USA") = true) ∧
      (tblDemo.any (fun r => r.alpha3 == upperStr "CAN") = true) ∧
      upperStr "USA" ≠ upperStr "CAN" ∧
      compute_distance tblDemo "USA" "CAN" = compute_distance tblDemo "CAN" "USA" :=
  ⟨by decide, by decide, by decide,
    C3_distance_symmetric tblDemo "USA" "CAN" (by decide) (by decide) (by decide)⟩

/-- C1 counterexample: the not-found sentinel does not identify which of the
two codes failed the lookup.  With the demo table (USA present) only ZZZ
fails, yet the sentinel names both codes; with the CAN-only table both USA
and ZZZ fail and the very same sentinel value is returned, so the result
value cannot identify the failing code(s). -/
theorem C1_counterexample :
    compute_distance tblDemo "USA" "ZZZ" = DistResult.notFound "USA" "ZZZ" ∧
      compute_distance tblCanOnly "USA" "ZZZ" = DistResult.notFound "USA" "ZZZ" ∧
      (tblDemo.any (fun r => r.alpha3 == upperStr "USA") = true) ∧
      (tblCanOnly.any (fun r => r.alpha3 == upperStr "USA") = false) ∧
      (tblDemo.any (fun r => r.alpha3 == upperStr "ZZZ") = false) ∧
      (tblCanOnly.any (fun r => r.alpha3 == upperStr "ZZZ") = false) :=
  ⟨rfl, rfl, by decide, by decide, by decide, by decide⟩

/-- C1 (amended): if the uppercased codes differ and at least one is absent
from the table, compute_distance returns the not-found sentinel rather than
raising, and the sentinel names both uppercased input codes — so every
failing code appears in the result, but the result does not single out
which of the two failed. -/
theorem C1_not_found_amended (table : List CountryRow) (iso1 iso2 : String)
    (hne : upperStr iso1 ≠ upperStr iso2)
    (habs : table.any (fun r => r.alpha3 == upperStr iso1) = false ∨
      table.any (fun r => r.alpha3 == upperStr iso2) = false) :
    compute_distance table iso1 iso2 =
      DistResult.notFound (upperStr iso1) (upperStr iso2) := by
  unfold compute_distance
  rcases habs with h | h <;> simp [if_neg hne, h]

/-- Witness for the amended C1 at the demo table with the absent code ZZZ. -/
theorem C1_witness :
    upperStr "USA" ≠ upperStr "ZZZ" ∧
      (tblDemo.any (fun r => r.alpha3 == upperStr "ZZZ") = false) ∧
      compute_distance tblDemo "USA" "ZZZ" = DistResult.notFound "USA" "ZZZ" :=
  ⟨by decide, by decide,
    C1_not_found_amended tblDemo "USA" "ZZZ" (by decide) (Or.inr (by decide))⟩

/-- C2 counterexample: the loader does not uppercase the stored codes (it
only strips quotes and whitespace), so a code present in the raw table in
lowercase is NOT resolved: looking up exactly the raw code "usa" (in the
very letter case the table stores) hits the not-found branch instead of
resolving to its row. -/
theorem C2_counterexample :
    normCode "usa" = "usa" ∧
      ((loadTable rawLower).any (fun r => r.alpha3 == upperStr "usa") = false) ∧
      compute_distance (loadTable rawLower) "usa" "CAN" = DistResult.notFound "USA" "CAN" :=
  ⟨by decide, by decide, rfl⟩

/-- C2 (amended): only the lookup inputs are uppercased; the loader strips
quote characters and whitespace but keeps letter case.  Case-insensitive
resolution therefore holds exactly for codes stored in uppercase: if a
stored code c is uppercase-invariant, then any lookup string s with
upperStr s = c resolves to the same first matching row as c itself, and
compute_distance treats s and c identically. -/
theorem C2_case_insensitive_amended (table : List CountryRow) (s c t : String)
    (hc : upperStr c = c) (hs : upperStr s = c) :
    table.find? (fun r => r.alpha3 == upperStr s) = table.find? (fun r => r.alpha3 == c) ∧
      compute_distance table s t = compute_distance table c t := by
  constructor
  · rw [hs]
  · unfold compute_distance
    rw [hs, hc]

/-- Witness for the amended C2: "usa" and "Usa" both resolve like "USA" on
the demo table. -/
theorem C2_witness :
    upperStr "USA" = "USA" ∧ upperStr "usa" = "USA" ∧
      (tblDemo.find? (fun r => r.alpha3 == upperStr "usa") =
        tblDemo.find? (fun r => r.alpha3 == "USA") ∧
      compute_distance tblDemo "usa" "CAN" = compute_distance tblDemo "USA" "CAN") :=
  ⟨by decide, by decide,
    C2_case_insensitive_amended tblDemo "usa" "USA" "CAN" (by decide) (by decide)⟩

end CodeGeo

namespace Plot

theorem char_eq_of_toNat_eq {a b : Char} (h : a.toNat = b.toNat) : a = b :=
  Char.ext (UInt32.ext h)

theorem lexLt_trichotomy : ∀ a b : List Char,
    lexLt a b = false → lexLt b a = false → a = b := by
  intro a
  induction a with
  | nil =>
    intro b h1 _
    cases b with
    | nil => rfl
    | cons x xs => simp [lexLt] at h1
  | cons x xs ih =>
    intro b h1 h2
    cases b with
    | nil => simp [lexLt] at h2
    | cons y ys =>
      simp only [lexLt] at h1 h2
      by_cases hxy : x.toNat < y.toNat
      · simp [hxy] at h1
      · by_cases hyx : y.toNat < x.toNat
        · simp [hyx, hxy] at h2
        · have hx : x = y := char_eq_of_toNat_eq (by omega)
          simp [hxy, hyx] at h1 h2
          rw [hx, ih ys h1 h2]

theorem lexLt_asymm : ∀ a b : List Char,
    lexLt a b = true → lexLt b a = false := by
  intro a
  induction a with
  | nil =>
    intro b h
    cases b with
    | nil => simp [lexLt] at h
    | cons y ys => simp [lexLt]
  | cons x xs ih =>
    intro b h
    cases b with
    | nil => simp [lexLt] at h
    | cons y ys =>
      simp only [lexLt] at h ⊢
      by_cases hxy : x.toNat < y.toNat
      · simp [hxy]
        omega
      · by_cases hyx : y.toNat < x.toNat
        · simp [hxy, hyx] at h
        · simp [hxy, hyx] at h ⊢
          exact ih ys h

theorem lexLt_trans : ∀ a b c : List Char,
    lexLt a b = true → lexLt b c = true → lexLt a c = true := by
  intro a
  induction a with
  | nil =>
    intro b c h1 h2
    cases b with
    | nil => simp [lexLt] at h1
    | cons y ys =>
      cases c with
      | nil => simp [lexLt] at h2
      | cons z zs => simp [lexLt]
  | cons x xs ih =>
    intro b c h1 h2
    cases b with
    | nil => simp [lexLt] at h1
    | cons y ys =>
      cases c with
      | nil => simp [lexLt] at h2
      | cons z zs =>
        simp only [lexLt] at h1 h2 ⊢
        by_cases hxy : x.toNat < y.toNat
        · by_cases hyz : y.toNat < z.toNat
          · simp [show x.toNat < z.toNat by omega]
          · by_cases hzy : z.toNat < y.toNat
            · simp [hyz, hzy] at h2
            · simp [show x.toNat < z.toNat by omega]
        · by_cases hyx : y.toNat < x.toNat
          · simp [hxy, hyx] at h1
          · by_cases hyz : y.toNat < z.toNat
            · simp [show x.toNat < z.toNat by omega]
            · by_cases hzy : z.toNat < y.toNat
              · simp [hyz, hzy] at h2
              · simp [hxy, hyx] at h1
                simp [hyz, hzy] at h2
                simp [show ¬ x.toNat < z.toNat by omega, show ¬ z.toNat < x.toNat by omega]
                exact ih ys zs h1 h2

theorem lexLt_irrefl (a : List Char) : lexLt a a = false := by
  cases h : lexLt a a with
  | false => rfl
  | true => exact absurd h (by simp [lexLt_asymm a a h])

theorem strLeP_total : ∀ a b : String, strLeP a b ∨ strLeP b a := by
  intro a b
  unfold strLeP strLe
  cases h : lexLt b.data a.data with
  | false => exact Or.inl (by simp)
  | true => exact Or.inr (by simp [lexLt_asymm _ _ h])

theorem strLeP_trans : ∀ a b c : String, strLeP a b → strLeP b c → strLeP a c := by
  intro a b c h1 h2
  unfold strLeP strLe at h1 h2 ⊢
  simp only [Bool.not_eq_true'] at h1 h2 ⊢
  cases h : lexLt c.data a.data with
  | false => rfl
  | true =>
    exfalso
    cases hab : lexLt a.data b.data with
    | true =>
      have hcb := lexLt_trans _ _ _ h hab
      rw [h2] at hcb
      exact Bool.false_ne_true hcb
    | false =>
      have heq : a.data = b.data := lexLt_trichotomy _ _ hab h1
      rw [heq, h2] at h
      exact Bool.false_ne_true h

theorem strLt_of_strLeP_ne {a b : String} (h : strLeP a b) (hne : a ≠ b) :
    strLt a b = true := by
  unfold strLeP strLe at h
  simp only [Bool.not_eq_true'] at h
  unfold strLt
  cases hab : lexLt a.data b.data with
  | true => rfl
  | false =>
    have heq : a.data = b.data := lexLt_trichotomy _ _ hab h
    have heqs : a = b := by
      cases a
      cases b
      exact congrArg String.mk (by simpa using heq)
    exact absurd heqs hne

theorem strLt_irrefl (a : String) : strLt a a = false := by
  unfold strLt
  exact lexLt_irrefl a.data

theorem uniqSorted_nodup (l : List String) : (uniqSorted l).Nodup := by
  unfold uniqSorted
  exact (List.perm_insertionSort strLeP l.dedup).nodup_iff.mpr l.nodup_dedup

theorem uniqSorted_sorted (l : List String) : (uniqSorted l).Pairwise strLeP := by
  unfold uniqSorted
  haveI : IsTotal String strLeP := ⟨strLeP_total⟩
  haveI : IsTrans String strLeP := ⟨strLeP_trans⟩
  exact List.sorted_insertionSort strLeP l.dedup

theorem uniqSorted_pairwise_lt (l : List String) :
    (uniqSorted l).Pairwise (fun a b => strLt a b = true) := by
  have hs := uniqSorted_sorted l
  have hn : (uniqSorted l).Pairwise (fun a b => a ≠ b) := uniqSorted_nodup l
  exact (hs.and hn).imp (fun h => strLt_of_strLeP_ne h.1 h.2)

theorem pairs2_rel {α : Type} {R : α → α → Prop} :
    ∀ {l : List α}, l.Pairwise R → ∀ p ∈ pairs2 l, R p.1 p.2 := by
  intro l
  induction l with
  | nil => intro _ p hp; simp [pairs2] at hp
  | cons x xs ih =>
    intro hpw p hp
    rw [List.pairwise_cons] at hpw
    unfold pairs2 at hp
    rcases List.mem_append.mp hp with hmem | hmem
    · obtain ⟨y, hy, hyp⟩ := List.mem_map.mp hmem
      rw [← hyp]
      exact hpw.1 y hy
    · exact ih hpw.2 p hmem

theorem pairs2_fst_mem {α : Type} :
    ∀ {l : List α} {p : α × α}, p ∈ pairs2 l → p.1 ∈ l := by
  intro l
  induction l with
  | nil => intro p hp; simp [pairs2] at hp
  | cons x xs ih =>
    intro p hp
    unfold pairs2 at hp
    rcases List.mem_append.mp hp with hmem | hmem
    · obtain ⟨y, _, hyp⟩ := List.mem_map.mp hmem
      rw [← hyp]
      exact List.mem_cons_self x xs
    · exact List.mem_cons_of_mem x (ih hmem)

theorem pairs2_nodup {α : Type} : ∀ {l : List α}, l.Nodup → (pairs2 l).Nodup := by
  intro l
  induction l with
  | nil => intro _; simp [pairs2]
  | cons x xs ih =>
    intro hnd
    rw [List.nodup_cons] at hnd
    unfold pairs2
    refine List.Nodup.append ?_ (ih hnd.2) ?_
    · exact hnd.2.map (fun a b hab => by simpa using congrArg Prod.snd hab)
    · intro q hq1 hq2
      obtain ⟨y, _, hyp⟩ := List.mem_map.mp hq1
      have h1 : q.1 = x := by rw [← hyp]
      have h2 : q.1 ∈ xs := pairs2_fst_mem hq2
      rw [h1] at h2
      exact hnd.1 h2

theorem countOcc_eq_zero_of_not_mem {p : String × String} :
    ∀ {l : List (String × String)}, p ∉ l → countOcc p l = 0 := by
  intro l
  induction l with
  | nil => intro _; rfl
  | cons q qs ih =>
    intro h
    unfold countOcc List.filter
    have hqp : (q == p) = false := by
      simp only [beq_eq_false_iff_ne, ne_eq]
      intro hq
      exact h (hq ▸ List.mem_cons_self q qs)
    rw [hqp]
    exact ih (fun hm => h (List.mem_cons_of_mem q hm))

theorem countOcc_le_one_of_nodup {p : String × String} :
    ∀ {l : List (String × String)}, l.Nodup → countOcc p l ≤ 1 := by
  intro l
  induction l with
  | nil => intro _; simp [countOcc]
  | cons q qs ih =>
    intro hnd
    rw [List.nodup_cons] at hnd
    unfold countOcc List.filter
    cases hqp : q == p with
    | false => exact ih hnd.2
    | true =>
      have hq : q = p := by simpa using hqp
      have : countOcc p qs = 0 := countOcc_eq_zero_of_not_mem (hq ▸ hnd.1)
      unfold countOcc at this
      simp [this]

theorem mem_of_countOcc_ne_zero {p : String × String} :
    ∀ {l : List (String × String)}, countOcc p l ≠ 0 → p ∈ l := by
  intro l h
  unfold countOcc at h
  have hne : l.filter (fun q => q == p) ≠ [] := by
    intro hnil
    rw [hnil] at h
    exact h rfl
  obtain ⟨q, hq⟩ := List.exists_mem_of_ne_nil _ hne
  have := List.mem_filter.mp hq
  have hqp : q = p := by simpa using this.2
  exact hqp ▸ this.1

theorem recordPairs_nodup (r : Option (List String)) : (recordPairs r).Nodup := by
  cases r with
  | none => simp [recordPairs]
  | some lst => exact pairs2_nodup (uniqSorted_nodup lst)

theorem recordPairs_strict (r : Option (List String)) :
    ∀ p ∈ recordPairs r, strLt p.1 p.2 = true := by
  cases r with
  | none => intro p hp; simp [recordPairs] at hp
  | some lst =>
    intro p hp
    exact pairs2_rel (uniqSorted_pairwise_lt lst) p hp

/-- C4: per-record pair counting invariants of the co-mention aggregator:
every unordered pair is counted at most once per record even when codes
repeat in that record's list; no self-pair is ever counted; every key with
a non-zero aggregate count is strictly ordered (a < b in the code-point
order); and a record with a missing or empty list contributes nothing. -/
theorem C4_aggregator_invariants (records : List (Option (List String))) :
    (∀ r ∈ records, ∀ p : String × String, countOcc p (recordPairs r) ≤ 1) ∧
      (∀ a : String, aggregate records (a, a) = 0) ∧
      (∀ p : String × String, aggregate records p ≠ 0 → strLt p.1 p.2 = true) ∧
      (∀ r ∈ records, (r = none ∨ r = some []) →
        ∀ p : String × String, countOcc p (recordPairs r) = 0) := by
  refine ⟨?_, ?_, ?_, ?_⟩
  · intro r _ p
    exact countOcc_le_one_of_nodup (recordPairs_nodup r)
  · intro a
    induction records with
    | nil => rfl
    | cons r rest ih =>
      unfold aggregate
      rw [ih, countOcc_eq_zero_of_not_mem]
      intro hmem
      have := recordPairs_strict r (a, a) hmem
      rw [strLt_irrefl] at this
      exact Bool.false_ne_true this
  · intro p
    induction records with
    | nil => intro h; exact absurd rfl h
    | cons r rest ih =>
      intro h
      unfold aggregate at h
      by_cases hc : countOcc p (recordPairs r) = 0
      · rw [hc, Nat.zero_add] at h
        exact ih h
      · exact recordPairs_strict r p (mem_of_countOcc_ne_zero hc)
  · intro r _ hcase p
    rcases hcase with h | h <;> rw [h]
    · rfl
    · rfl

/-- Witness for C4 on the demo records: the duplicated record contributes
the pair (CAN, USA) at most once, the self pair (USA, USA) has aggregate
count 0, the counted key (CAN, USA) is strictly ordered, and the missing
and empty records contribute nothing. -/
theorem C4_witness :
    countOcc ("CAN", "USA") (recordPairs (some ["USA", "USA", "CAN"])) ≤ 1 ∧
      aggregate recsDemo ("USA", "USA") = 0 ∧
      aggregate recsDemo ("CAN", "USA") ≠ 0 ∧
      strLt "CAN" "USA" = true ∧
      countOcc ("CAN", "USA") (recordPairs none) = 0 ∧
      countOcc ("CAN", "USA") (recordPairs (some [])) = 0 := by
  have h := C4_aggregator_invariants recsDemo
  refine ⟨h.1 (some ["USA", "USA", "CAN"]) (by decide) ("CAN", "USA"),
    h.2.1 "USA", by decide, h.2.2.1 ("CAN", "USA") (by decide),
    h.2.2.2 none (by decide) (Or.inl rfl) ("CAN", "USA"),
    h.2.2.2 (some []) (by decide) (Or.inr rfl) ("CAN", "USA")⟩

end Plot

namespace Plot

theorem outcome_of_no_labels (records : List MRecord) (c1 c2 : String) (topn : Option Nat)
    (h : subjCounterLabels records c1 c2 = []) :
    plot_pair_mentions_by_subject records c1 c2 topn =
      { counts := [], printedDiagnostic := true, rendered := false } := by
  simp [plot_pair_mentions_by_subject, h]

/-- C5: when no record's country list contains both chosen codes, the
subject-breakdown function returns the empty mapping, prints the
no-records-found diagnostic and does not render a chart. -/
theorem C5_no_matching_records (records : List MRecord) (c1 c2 : String) (topn : Option Nat)
    (h : ∀ r ∈ records, pairMask c1 c2 r = false) :
    plot_pair_mentions_by_subject records c1 c2 topn =
      { counts := [], printedDiagnostic := true, rendered := false } := by
  have hf : records.filter (pairMask c1 c2) = [] :=
    List.filter_eq_nil_iff.mpr (fun r hr => by simp [h r hr])
  have hl : subjCounterLabels records c1 c2 = [] := by
    unfold subjCounterLabels
    rw [hf]
    rfl
  exact outcome_of_no_labels records c1 c2 topn hl

/-- Witness for C5: the demo corpus has no record mentioning both USA and
GBR, and the outcome is the empty mapping with the diagnostic and no
rendering. -/
theorem C5_witness :
    (∀ r ∈ recsNoMatch, pairMask "USA" "GBR" r = false) ∧
      plot_pair_mentions_by_subject recsNoMatch "USA" "GBR" none =
        { counts := [], printedDiagnostic := true, rendered := false } :=
  ⟨by decide, C5_no_matching_records recsNoMatch "USA" "GBR" none (by decide)⟩

/-- C10: the subject-breakdown function returns the empty mapping, prints
the no-records-found diagnostic and renders nothing whenever the
subject-label counter is empty — in particular when records matching the
pair do exist but every matching record has a missing subjareas field or a
subject string whose comma-separated pieces are all empty after
stripping. -/
theorem C10_empty_counter (records : List MRecord) (c1 c2 : String) (topn : Option Nat)
    (h : ∀ r ∈ records, pairMask c1 c2 r = true → subjEmpty r = true) :
    plot_pair_mentions_by_subject records c1 c2 topn =
      { counts := [], printedDiagnostic := true, rendered := false } := by
  have hl : subjCounterLabels records c1 c2 = [] := by
    unfold subjCounterLabels
    refine List.flatten_eq_nil_iff.mpr ?_
    intro x hx
    obtain ⟨e, he, hxe⟩ := List.mem_map.mp hx
    obtain ⟨r, hr, hre⟩ := List.mem_filterMap.mp he
    obtain ⟨hrm, hmask⟩ := List.mem_filter.mp hr
    have hse := h r hrm hmask
    unfold subjEmpty at hse
    rw [hre] at hse
    rw [← hxe]
    simpa using hse
  exact outcome_of_no_labels records c1 c2 topn hl

/-- Witness for C10: both demo records match the pair (USA, GBR), yet one
has a whitespace-only subject string and the other a missing one, so the
counter is empty and the diagnostic branch is taken. -/
theorem C10_witness :
    pairMask "USA" "GBR" ⟨some ["USA", "GBR"], some " , "⟩ = true ∧
      subjLabels " , " = [] ∧
      (∀ r ∈ recsBlankSubj, pairMask "USA" "GBR" r = true → subjEmpty r = true) ∧
      plot_pair_mentions_by_subject recsBlankSubj "USA" "GBR" none =
        { counts := [], printedDiagnostic := true, rendered := false } :=
  ⟨by decide, by decide, by decide,
    C10_empty_counter recsBlankSubj "USA" "GBR" none (by decide)⟩

end Plot

namespace CodeGeo

/-- C6: haversine(0, 0, 0, 90) equals pi/2 times 6371.0 km — a quarter of
the Earth's circumference along the equator — in exact real arithmetic. -/
theorem C6_quarter_equator : haversine 0 0 0 90 = Real.pi / 2 * 6371.0 := by
  have hpi := Real.pi_pos
  unfold haversine hav_a radians
  rw [show ((0:ℝ) - 0) * (Real.pi / 180) / 2 = 0 by ring]
  rw [show ((90:ℝ) - 0) * (Real.pi / 180) / 2 = Real.pi / 4 by ring]
  rw [show (0:ℝ) * (Real.pi / 180) = 0 by ring]
  rw [Real.sin_zero, Real.cos_zero, Real.sin_pi_div_four]
  rw [show (0:ℝ) ^ 2 + 1 * 1 * (Real.sqrt 2 / 2) ^ 2 = 1 / 2 by
    rw [div_pow, Real.sq_sqrt (by norm_num : (0:ℝ) ≤ 2)]
    norm_num]
  rw [show Real.sqrt (1 / 2) = Real.sqrt 2 / 2 by
    rw [show (1 / 2 : ℝ) = (Real.sqrt 2 / 2) ^ 2 by
      rw [div_pow, Real.sq_sqrt (by norm_num : (0:ℝ) ≤ 2)]
      norm_num]
    exact Real.sqrt_sq (by positivity)]
  rw [← Real.sin_pi_div_four, Real.arcsin_sin (by linarith) (by linarith)]
  ring

/-- C7: for latitudes in [-90, 90] and longitudes in [-180, 180] the
intermediate haversine quantity a lies in [0, 1], hence sqrt a is defined
and lies in asin's domain [-1, 1], and the returned distance is
non-negative — no domain error is reachable. -/
theorem C7_haversine_safe (lat1 lon1 lat2 lon2 : ℝ)
    (hlat1 : -90 ≤ lat1) (hlat1' : lat1 ≤ 90)
    (hlat2 : -90 ≤ lat2) (hlat2' : lat2 ≤ 90)
    (hlon1 : -180 ≤ lon1) (hlon1' : lon1 ≤ 180)
    (hlon2 : -180 ≤ lon2) (hlon2' : lon2 ≤ 180) :
    0 ≤ hav_a lat1 lon1 lat2 lon2 ∧ hav_a lat1 lon1 lat2 lon2 ≤ 1 ∧
      Real.sqrt (hav_a lat1 lon1 lat2 lon2) ∈ Set.Icc (-1 : ℝ) 1 ∧
      0 ≤ haversine lat1 lon1 lat2 lon2 := by
  have hpi := Real.pi_pos
  have hb1 : radians lat1 ∈ Set.Icc (-(Real.pi / 2)) (Real.pi / 2) := by
    unfold radians
    constructor <;> nlinarith
  have hb2 : radians lat2 ∈ Set.Icc (-(Real.pi / 2)) (Real.pi / 2) := by
    unfold radians
    constructor <;> nlinarith
  have hc1 : 0 ≤ Real.cos (radians lat1) := Real.cos_nonneg_of_mem_Icc hb1
  have hc2 : 0 ≤ Real.cos (radians lat2) := Real.cos_nonneg_of_mem_Icc hb2
  have hs0 : 0 ≤ Real.sin (radians (lon2 - lon1) / 2) ^ 2 := sq_nonneg _
  have hs1 : Real.sin (radians (lon2 - lon1) / 2) ^ 2 ≤ 1 := Real.sin_sq_le_one _
  have ha0 : 0 ≤ hav_a lat1 lon1 lat2 lon2 := by
    unfold hav_a
    have := sq_nonneg (Real.sin (radians (lat2 - lat1) / 2))
    nlinarith [mul_nonneg (mul_nonneg hc1 hc2) hs0]
  have ha1 : hav_a lat1 lon1 lat2 lon2 ≤ 1 := by
    unfold hav_a
    have hdl : radians (lat2 - lat1) = radians lat2 - radians lat1 := by
      unfold radians
      ring
    have hhalf : Real.sin (radians (lat2 - lat1) / 2) ^ 2 =
        1 / 2 - Real.cos (radians (lat2 - lat1)) / 2 := by
      have h := Real.sin_sq_eq_half_sub (radians (lat2 - lat1) / 2)
      rw [show 2 * (radians (lat2 - lat1) / 2) = radians (lat2 - lat1) by ring] at h
      exact h
    rw [hhalf, hdl, Real.cos_sub]
    have hadd : Real.cos (radians lat1 + radians lat2) ≤ 1 := Real.cos_le_one _
    rw [Real.cos_add] at hadd
    have hmul : Real.cos (radians lat1) * Real.cos (radians lat2) *
        Real.sin (radians (lon2 - lon1) / 2) ^ 2 ≤
        Real.cos (radians lat1) * Real.cos (radians lat2) := by
      nlinarith [mul_nonneg hc1 hc2]
    nlinarith [mul_nonneg hc1 hc2]
  refine ⟨ha0, ha1, ⟨(by norm_num : (-1:ℝ) ≤ 0).trans (Real.sqrt_nonneg _), ?_⟩, ?_⟩
  · calc Real.sqrt (hav_a lat1 lon1 lat2 lon2) ≤ Real.sqrt 1 := Real.sqrt_le_sqrt ha1
      _ = 1 := Real.sqrt_one
  · unfold haversine
    have harcsin : 0 ≤ Real.arcsin (Real.sqrt (hav_a lat1 lon1 lat2 lon2)) :=
      Real.arcsin_nonneg.mpr (Real.sqrt_nonneg _)
    positivity

/-- Witness for C7 at the in-range input (lat1, lon1, lat2, lon2) =
(0, 0, 45, 90). -/
theorem C7_witness :
    ((-90:ℝ) ≤ 0 ∧ (0:ℝ) ≤ 90 ∧ (-90:ℝ) ≤ 45 ∧ (45:ℝ) ≤ 90 ∧
      (-180:ℝ) ≤ 0 ∧ (0:ℝ) ≤ 180 ∧ (-180:ℝ) ≤ 90 ∧ (90:ℝ) ≤ 180) ∧
      (0 ≤ hav_a 0 0 45 90 ∧ hav_a 0 0 45 90 ≤ 1 ∧
        Real.sqrt (hav_a 0 0 45 90) ∈ Set.Icc (-1 : ℝ) 1 ∧
        0 ≤ haversine 0 0 45 90) :=
  ⟨⟨by norm_num, by norm_num, by norm_num, by norm_num,
    by norm_num, by norm_num, by norm_num, by norm_num⟩,
    C7_haversine_safe 0 0 45 90 (by norm_num) (by norm_num) (by norm_num)
      (by norm_num) (by norm_num) (by norm_num) (by norm_num) (by norm_num)⟩

end CodeGeo
